import Mathlib

/-
Verification of the WikiWatch streaming-analytics pipeline.

The pipeline (src/spark/spark_wiki_file.py) is a declarative Spark
Structured Streaming job; we embed it shallowly as pure functions over
finite lists of events.  Timestamps are integers (seconds); the window
durations of the source are 60 s ("1 minute") and 600 s ("10 minutes").
Group-by/aggregate/join/filter operators are given their standard
relational semantics over lists.  Floating-point columns (the ratio and
the bot share) are modelled over the rationals, and the score column
(which takes a square root) over the reals.
-/

set_option maxRecDepth 100000

namespace WikiWatch

/-- An event row of the source stream after the projection at
src/spark/spark_wiki_file.py:35-43: `ts` is the parsed event time,
`project` is `coalesce(server_name, wiki)`, `page` is the title and
`bot` is the bot flag. -/
structure Event where
  ts : Int
  project : String
  page : String
  bot : Bool
deriving DecidableEq

/-- Modelled from the spec (§4.2) and the documented semantics of the
`F.window(ts, size, slide)` expression used at
src/spark/spark_wiki_file.py:47,57,65,71,106 — the window-assignment
computation itself happens inside the external streaming runtime, not in
this repository.  `windowsFor t size slide` is the list of starts of the
grid-aligned windows `[start, start+size)` that contain `t`:
all `start = k*slide` with `start ≤ t < start + size`.  A configuration
where `size` is not a positive multiple of a positive `slide` is a
startup error; it is modelled by the empty list. -/
def windowsFor (t size slide : Int) : List Int :=
  if 0 < slide ∧ 0 < size ∧ size % slide = 0 then
    (List.range (size / slide).toNat).map (fun i : Nat => (t / slide - (i : Int)) * slide)
  else []

lemma windowsFor_eq_map (t size slide : Int)
    (h : 0 < slide ∧ 0 < size ∧ size % slide = 0) :
    windowsFor t size slide =
      (List.range (size / slide).toNat).map (fun i : Nat => (t / slide - (i : Int)) * slide) := by
  simp [windowsFor, h]

lemma size_eq_mul (size slide : Int) (hslide : 0 < slide) (hmod : size % slide = 0) :
    size = slide * (size / slide) := by
  have h := Int.ediv_add_emod size slide
  omega

/-- Membership in the window index: the grid-aligned windows containing `t`. -/
lemma mem_windowsFor {t size slide s : Int}
    (hslide : 0 < slide) (hsize : 0 < size) (hmod : size % slide = 0) :
    s ∈ windowsFor t size slide ↔ (slide ∣ s ∧ s ≤ t ∧ t < s + size) := by
  have hsz := size_eq_mul size slide hslide hmod
  have hq := Int.ediv_add_emod t slide
  have hr0 : 0 ≤ t % slide := Int.emod_nonneg t (ne_of_gt hslide)
  have hr1 : t % slide < slide := Int.emod_lt_of_pos t hslide
  have hM0 : 0 < size / slide := by
    rcases lt_or_le 0 (size / slide) with h | h
    · exact h
    · exfalso
      have : slide * (size / slide) ≤ 0 := by
        have := mul_nonneg (le_of_lt hslide) (neg_nonneg.mpr h)
        nlinarith
      omega
  rw [windowsFor_eq_map t size slide ⟨hslide, hsize, hmod⟩]
  constructor
  · intro hs
    rcases List.mem_map.mp hs with ⟨i, hi, rfl⟩
    have hiM : (i : Int) < size / slide := by
      have := List.mem_range.mp hi
      omega
    have hi0 : (0 : Int) ≤ (i : Int) := Int.natCast_nonneg i
    refine ⟨⟨t / slide - (i : Int), mul_comm _ _⟩, ?_, ?_⟩
    · have h1 : (t / slide - (i : Int)) * slide ≤ (t / slide) * slide :=
        mul_le_mul_of_nonneg_right (by omega) (le_of_lt hslide)
      nlinarith
    · have h2 : ((t / slide) + 1) * slide ≤ (t / slide - (i : Int) + size / slide) * slide :=
        mul_le_mul_of_nonneg_right (by omega) (le_of_lt hslide)
      nlinarith
  · rintro ⟨⟨c, rfl⟩, hle, hlt⟩
    have hcq : c ≤ t / slide := by
      have : c * slide ≤ t := by nlinarith
      exact (Int.le_ediv_iff_mul_le hslide).mpr this
    have hcM : t / slide < c + size / slide := by
      have ht : t < (c + size / slide) * slide := by nlinarith
      exact (Int.ediv_lt_iff_lt_mul hslide).mpr ht
    refine List.mem_map.mpr ⟨(t / slide - c).toNat, ?_, ?_⟩
    · refine List.mem_range.mpr ?_
      have h1 : ((t / slide - c).toNat : Int) = t / slide - c := Int.toNat_of_nonneg (by omega)
      have h2 : (0 : Int) ≤ size / slide := le_of_lt hM0
      omega
    · have h1 : ((t / slide - c).toNat : Int) = t / slide - c := Int.toNat_of_nonneg (by omega)
      rw [h1]
      ring

/-- The window index never assigns the same window twice. -/
lemma windowsFor_nodup (t size slide : Int) : (windowsFor t size slide).Nodup := by
  unfold windowsFor
  split
  · rename_i h
    refine List.Nodup.map ?_ (List.nodup_range _)
    intro a b hab
    have hs : slide ≠ 0 := ne_of_gt h.1
    have : (a : Int) = (b : Int) := by
      have := mul_right_cancel₀ hs hab
      omega
    exact_mod_cast this
  · exact List.nodup_nil

/-- Number of windows assigned: `size / slide`. -/
lemma windowsFor_length (t size slide : Int)
    (h : 0 < slide ∧ 0 < size ∧ size % slide = 0) :
    (windowsFor t size slide).length = (size / slide).toNat := by
  rw [windowsFor_eq_map t size slide h]
  simp

/-- The rows of the group with key `k` under the (multi-)key function
`keyOf`: every event is assigned once to each of its keys, which is the
relational semantics of `groupBy` over a window expression (the event row
is replicated to each window containing its timestamp). -/
def groupRows {κ : Type} [DecidableEq κ] (keyOf : Event → List κ) (k : κ)
    (l : List Event) : List Event :=
  l.filter (fun e => decide (k ∈ keyOf e))

/-- The operator `groupBy(keys).agg(out)` over a list: one output row per distinct
key occurring in the input, aggregated by `out` over that key's rows. -/
def groupAgg {κ α : Type} [DecidableEq κ] (keyOf : Event → List κ)
    (out : κ → List Event → α) (l : List Event) : List α :=
  ((l.flatMap keyOf).dedup).map (fun k => out k (groupRows keyOf k l))

/-- Output row of query 1 (src/spark/spark_wiki_file.py:46-53):
edits per project over tumbling 1-minute windows, with the distinct-page
count (the source's `approx_count_distinct` sketch is modelled by the
exact distinct count) and the bot share `avg(when(bot,1).otherwise(0))`. -/
structure ProjRow where
  wstart : Int
  project : String
  edits : Nat
  uniquePages : Nat
  botsShare : ℚ
deriving DecidableEq

/-- Grouping key of query 1 and of `edits_1m`: tumbling 1-minute window
start paired with the project. -/
def byProjKey (e : Event) : List (Int × String) :=
  (windowsFor e.ts 60 60).map (fun w => (w, e.project))

/-- Query 1 (src/spark/spark_wiki_file.py:46-53). -/
def by_proj (l : List Event) : List ProjRow :=
  groupAgg byProjKey
    (fun k g =>
      ⟨k.1, k.2, g.length, (g.map Event.page).dedup.length,
        ((g.countP (fun e => e.bot) : ℚ) / (g.length : ℚ))⟩) l

/-- Output row of the per-page sliding-window queries
(src/spark/spark_wiki_file.py:56-60 and 105-109). -/
structure PageRow where
  wstart : Int
  project : String
  page : String
  edits : Nat
deriving DecidableEq

/-- Grouping key of queries 2 and 4: sliding 10-minute window (1-minute
step) start, project, page title. -/
def pagesKey (e : Event) : List (Int × String × String) :=
  (windowsFor e.ts 600 60).map (fun w => (w, e.project, e.page))

/-- Query 2 (src/spark/spark_wiki_file.py:56-60). -/
def pages (l : List Event) : List PageRow :=
  groupAgg pagesKey (fun k g => ⟨k.1, k.2.1, k.2.2, g.length⟩) l

/-- The grouping at src/spark/spark_wiki_file.py:105-109, identical to
query 2 (its count column keeps the name `count`). -/
def pages10 : List Event → List PageRow := pages

/-- A windowed count row per project (`edits_1m` / `edits_10m`,
src/spark/spark_wiki_file.py:64-73). -/
structure CountRow where
  wstart : Int
  project : String
  cnt : Nat
deriving DecidableEq

/-- Grouping key of `edits_10m`: sliding 10-minute window (1-minute step)
start paired with the project. -/
def edits10mKey (e : Event) : List (Int × String) :=
  (windowsFor e.ts 600 60).map (fun w => (w, e.project))

/-- The query `edits_1m` (src/spark/spark_wiki_file.py:64-67): 1-minute tumbling
counts per project. -/
def edits_1m (l : List Event) : List CountRow :=
  groupAgg byProjKey (fun k g => ⟨k.1, k.2, g.length⟩) l

/-- The query `edits_10m` (src/spark/spark_wiki_file.py:70-73): 10-minute sliding
counts per project, stepping each minute. -/
def edits_10m (l : List Event) : List CountRow :=
  groupAgg edits10mKey (fun k g => ⟨k.1, k.2, g.length⟩) l

/-- The function `F.greatest` on two rational columns (an executable form of `max`). -/
def greatestQ (a b : ℚ) : ℚ := if a ≤ b then b else a

lemma greatestQ_eq_max (a b : ℚ) : greatestQ a b = max a b := by
  unfold greatestQ
  split_ifs with h
  · exact (max_eq_right h).symm
  · exact (max_eq_left (le_of_not_le h)).symm

/-- The ratio column of the spike query
(src/spark/spark_wiki_file.py:92): the 1-minute count over the
10-minute-per-minute average, floored at epsilon = 1e-6. -/
def ratioOf (e1 e10 : Nat) : ℚ :=
  (e1 : ℚ) / greatestQ ((e10 : ℚ) / 10) ((1 : ℚ) / 1000000)

/-- A row of the spike query: window start, project, the two counts and
the ratio column (named `burst` here). -/
structure SpikeRow where
  wstart : Int
  project : String
  edits1m : Nat
  edits10m : Nat
  burst : ℚ
deriving DecidableEq

/-- The inner join of `edits_1m` and `edits_10m` on equal project and on
`w1.end == w10.end` together with the select of
src/spark/spark_wiki_file.py:76-93 (window ends are start+60 and
start+600 respectively). -/
def spikesJoined (l : List Event) : List SpikeRow :=
  (edits_1m l).flatMap (fun a =>
    (edits_10m l).filterMap (fun b =>
      if a.project = b.project ∧ a.wstart + 60 = b.wstart + 600 then
        some ⟨a.wstart, a.project, a.cnt, b.cnt, ratioOf a.cnt b.cnt⟩
      else none))

/-- Query 3 (src/spark/spark_wiki_file.py:76-95): the joined rows kept by
the filter `edits_10m >= 5 && ratio >= 2.0`. -/
def spikes (l : List Event) : List SpikeRow :=
  (spikesJoined l).filter (fun r => decide (5 ≤ r.edits10m ∧ 2 ≤ r.burst))

/-- The score column added at src/spark/spark_wiki_file.py:98-102. -/
noncomputable def scoreOf (e1 e10 : Nat) : ℝ :=
  ((e1 : ℝ) - (e10 : ℝ) / 10) / Real.sqrt (max ((e10 : ℝ) / 10) 1)

/-- The spike query with its score column
(src/spark/spark_wiki_file.py:98-102). -/
noncomputable def spikesScored (l : List Event) : List (SpikeRow × ℝ) :=
  (spikes l).map (fun r => (r, scoreOf r.edits1m r.edits10m))

/-- Output row of query 4 (src/spark/spark_wiki_file.py:110-118):
per (window, page), the set of projects (`collect_set`), the summed
count and the number of projects. -/
structure CrossRow where
  wstart : Int
  page : String
  projects : List String
  totalEdits : Nat
  nProjects : Nat
deriving DecidableEq

/-- The distinct (window, page) keys of the regrouping at
src/spark/spark_wiki_file.py:111. -/
def crossKeys (l : List Event) : List (Int × String) :=
  ((pages10 l).map (fun r => (r.wstart, r.page))).dedup

/-- The per-(window, project, page) count rows that fall into one
(window, page) group of the regrouping. -/
def crossGroup (l : List Event) (k : Int × String) : List PageRow :=
  (pages10 l).filter (fun r => decide (r.wstart = k.1 ∧ r.page = k.2))

/-- The aggregation of query 4 before its filter
(src/spark/spark_wiki_file.py:110-116): collect the distinct projects of
the group (`collect_set`), sum its counts, and record the project-set
size. -/
def crossAll (l : List Event) : List CrossRow :=
  (crossKeys l).map (fun k =>
    CrossRow.mk k.1 k.2 ((crossGroup l k).map (fun r => r.project)).dedup
      ((crossGroup l k).map (fun r => r.edits)).sum
      ((crossGroup l k).map (fun r => r.project)).dedup.length)

/-- Query 4 (src/spark/spark_wiki_file.py:110-118): keep the rows whose
page was touched by at least two projects in the window. -/
def cross (l : List Event) : List CrossRow :=
  (crossAll l).filter (fun r => decide (2 ≤ r.nProjects))

lemma mem_groupAgg {κ α : Type} [DecidableEq κ] (keyOf : Event → List κ)
    (out : κ → List Event → α) (l : List Event) (x : α) :
    x ∈ groupAgg keyOf out l ↔
      ∃ k, (∃ e ∈ l, k ∈ keyOf e) ∧ x = out k (groupRows keyOf k l) := by
  simp only [groupAgg, List.mem_map, List.mem_dedup, List.mem_flatMap]
  constructor
  · rintro ⟨k, hk, rfl⟩
    exact ⟨k, hk, rfl⟩
  · rintro ⟨k, hk, rfl⟩
    exact ⟨k, hk, rfl⟩

lemma groupRows_length_pos {κ : Type} [DecidableEq κ] (keyOf : Event → List κ)
    (k : κ) (l : List Event) (h : ∃ e ∈ l, k ∈ keyOf e) :
    0 < (groupRows keyOf k l).length := by
  rcases h with ⟨e, hel, hk⟩
  have : e ∈ groupRows keyOf k l := by
    simp [groupRows, List.mem_filter, hel, hk]
  exact List.length_pos.mpr (fun hnil => by simp [hnil] at this)

lemma mem_byProjKey {e : Event} {w : Int} {p : String} :
    (w, p) ∈ byProjKey e ↔ p = e.project ∧ w ∈ windowsFor e.ts 60 60 := by
  simp only [byProjKey, List.mem_map, Prod.mk.injEq]
  constructor
  · rintro ⟨w1, hw1, rfl, rfl⟩
    exact ⟨rfl, hw1⟩
  · rintro ⟨rfl, hw⟩
    exact ⟨w, hw, rfl, rfl⟩

lemma mem_pagesKey {e : Event} {w : Int} {p pg : String} :
    (w, p, pg) ∈ pagesKey e ↔ p = e.project ∧ pg = e.page ∧ w ∈ windowsFor e.ts 600 60 := by
  simp only [pagesKey, List.mem_map, Prod.mk.injEq]
  constructor
  · rintro ⟨w1, hw1, rfl, rfl, rfl⟩
    exact ⟨rfl, rfl, hw1⟩
  · rintro ⟨rfl, rfl, hw⟩
    exact ⟨w, hw, rfl, rfl, rfl⟩

lemma mem_edits10mKey {e : Event} {w : Int} {p : String} :
    (w, p) ∈ edits10mKey e ↔ p = e.project ∧ w ∈ windowsFor e.ts 600 60 := by
  simp only [edits10mKey, List.mem_map, Prod.mk.injEq]
  constructor
  · rintro ⟨w1, hw1, rfl, rfl⟩
    exact ⟨rfl, hw1⟩
  · rintro ⟨rfl, hw⟩
    exact ⟨w, hw, rfl, rfl⟩

lemma mem_windowsFor_60 {t s : Int} :
    s ∈ windowsFor t 60 60 ↔ (60 ∣ s ∧ s ≤ t ∧ t < s + 60) :=
  mem_windowsFor (by decide) (by decide) (by decide)

lemma mem_windowsFor_600 {t s : Int} :
    s ∈ windowsFor t 600 60 ↔ (60 ∣ s ∧ s ≤ t ∧ t < s + 600) :=
  mem_windowsFor (by decide) (by decide) (by decide)

/-- C1: for `size % slide == 0`, the window index returns exactly
`size/slide` windows, each containing the event time and each lying on
the slide grid; the tumbling case `slide == size` yields exactly the one
window starting at `floor(event_time/size)*size`. -/
theorem windowsFor_correct (t size slide : Int)
    (hslide : 0 < slide) (hsize : 0 < size) (hmod : size % slide = 0) :
    (windowsFor t size slide).length = (size / slide).toNat
    ∧ (∀ s ∈ windowsFor t size slide, slide ∣ s ∧ s ≤ t ∧ t < s + size)
    ∧ (slide = size → windowsFor t size slide = [t / size * size]) := by
  refine ⟨windowsFor_length t size slide ⟨hslide, hsize, hmod⟩, ?_, ?_⟩
  · intro s hs
    exact (mem_windowsFor hslide hsize hmod).mp hs
  · intro hss
    rw [hss]
    rw [windowsFor_eq_map t size size ⟨hsize, hsize, by simp⟩]
    rw [Int.ediv_self (ne_of_gt hsize)]
    norm_num [List.range_succ]

/-- Witness for C1 at `t = 125`, `size = 600`, `slide = 60`. -/
theorem windowsFor_correct_witness :
    (0 : Int) < 60 ∧
    ((windowsFor 125 600 60).length = ((600 : Int) / 60).toNat
     ∧ (∀ s ∈ windowsFor 125 600 60, (60 : Int) ∣ s ∧ s ≤ 125 ∧ (125 : Int) < s + 600)
     ∧ ((60 : Int) = 600 → windowsFor 125 600 60 = [125 / 600 * 600])) :=
  ⟨by decide, windowsFor_correct 125 600 60 (by decide) (by decide) (by decide)⟩

/-- C7: a record of the per-page sliding view (or of the per-project
tumbling view) exists for a (window, key) exactly when at least one event
with that key has its event time in that grid window, and every emitted
record counts at least one event — sparse emission, never zero-filled. -/
theorem sparse_emission (l : List Event) (w : Int) (p pg : String) :
    ((∃ r ∈ pages l, r.wstart = w ∧ r.project = p ∧ r.page = pg) ↔
      (60 ∣ w ∧ ∃ e ∈ l, e.project = p ∧ e.page = pg ∧ w ≤ e.ts ∧ e.ts < w + 600))
    ∧ ((∃ r ∈ by_proj l, r.wstart = w ∧ r.project = p) ↔
      (60 ∣ w ∧ ∃ e ∈ l, e.project = p ∧ w ≤ e.ts ∧ e.ts < w + 60))
    ∧ (∀ r ∈ pages l, 1 ≤ r.edits) ∧ (∀ r ∈ by_proj l, 1 ≤ r.edits) := by
  refine ⟨?_, ?_, ?_, ?_⟩
  · constructor
    · rintro ⟨r, hr, hw, hp, hpg⟩
      rcases (mem_groupAgg pagesKey _ l r).mp hr with ⟨k, ⟨e, hel, hk⟩, rfl⟩
      obtain rfl : k = (w, p, pg) := by
        simp only at hw hp hpg
        rcases k with ⟨k1, k2, k3⟩
        simp_all
      rcases mem_pagesKey.mp hk with ⟨hp1, hp2, hwin⟩
      rcases mem_windowsFor_600.mp hwin with ⟨hdvd, hle, hlt⟩
      exact ⟨hdvd, e, hel, hp1.symm, hp2.symm, hle, hlt⟩
    · rintro ⟨hdvd, e, hel, hp, hpg, hle, hlt⟩
      refine ⟨⟨w, p, pg, (groupRows pagesKey (w, p, pg) l).length⟩, ?_, rfl, rfl, rfl⟩
      refine (mem_groupAgg pagesKey _ l _).mpr ⟨(w, p, pg), ⟨e, hel, ?_⟩, rfl⟩
      exact mem_pagesKey.mpr ⟨hp.symm, hpg.symm, mem_windowsFor_600.mpr ⟨hdvd, hle, hlt⟩⟩
  · constructor
    · rintro ⟨r, hr, hw, hp⟩
      rcases (mem_groupAgg byProjKey _ l r).mp hr with ⟨k, ⟨e, hel, hk⟩, rfl⟩
      obtain rfl : k = (w, p) := by
        simp only at hw hp
        rcases k with ⟨k1, k2⟩
        simp_all
      rcases mem_byProjKey.mp hk with ⟨hp1, hwin⟩
      rcases mem_windowsFor_60.mp hwin with ⟨hdvd, hle, hlt⟩
      exact ⟨hdvd, e, hel, hp1.symm, hle, hlt⟩
    · rintro ⟨hdvd, e, hel, hp, hle, hlt⟩
      refine ⟨⟨w, p, (groupRows byProjKey (w, p) l).length,
        ((groupRows byProjKey (w, p) l).map Event.page).dedup.length,
        (((groupRows byProjKey (w, p) l).countP (fun e => e.bot) : ℚ) /
          ((groupRows byProjKey (w, p) l).length : ℚ))⟩, ?_, rfl, rfl⟩
      refine (mem_groupAgg byProjKey _ l _).mpr ⟨(w, p), ⟨e, hel, ?_⟩, rfl⟩
      exact mem_byProjKey.mpr ⟨hp.symm, mem_windowsFor_60.mpr ⟨hdvd, hle, hlt⟩⟩
  · intro r hr
    rcases (mem_groupAgg pagesKey _ l r).mp hr with ⟨k, hk, rfl⟩
    exact groupRows_length_pos pagesKey k l hk
  · intro r hr
    rcases (mem_groupAgg byProjKey _ l r).mp hr with ⟨k, hk, rfl⟩
    exact groupRows_length_pos byProjKey k l hk

/-- A two-event input used to witness C7. -/
def sparseDemo : List Event := [⟨70, "en", "A", false⟩, ⟨75, "en", "A", true⟩]

/-- Witness for C7 on a two-event input. -/
theorem sparse_emission_witness :
    ((∃ r ∈ pages sparseDemo, r.wstart = 60 ∧ r.project = "en" ∧ r.page = "A") ↔
      ((60 : Int) ∣ 60 ∧ ∃ e ∈ sparseDemo,
        e.project = "en" ∧ e.page = "A" ∧ (60 : Int) ≤ e.ts ∧ e.ts < 60 + 600))
    ∧ ((∃ r ∈ by_proj sparseDemo, r.wstart = 60 ∧ r.project = "en") ↔
      ((60 : Int) ∣ 60 ∧ ∃ e ∈ sparseDemo,
        e.project = "en" ∧ (60 : Int) ≤ e.ts ∧ e.ts < 60 + 60))
    ∧ (∀ r ∈ pages sparseDemo, 1 ≤ r.edits)
    ∧ (∀ r ∈ by_proj sparseDemo, 1 ≤ r.edits) :=
  sparse_emission sparseDemo 60 "en" "A"

/-- C2: among the matched (window.end, project) pairs of the 1-minute and
10-minute views, a spike row is emitted exactly when the 10-minute count
is at least 5 and the ratio is at least 2, the ratio of every matched row
being `short / max(long/10, 1e-6)`. -/
theorem spikes_emission (l : List Event) (r : SpikeRow) :
    (r ∈ spikes l ↔ (r ∈ spikesJoined l ∧ 5 ≤ r.edits10m ∧ 2 ≤ r.burst))
    ∧ (r ∈ spikesJoined l →
        r.burst = (r.edits1m : ℚ) / max ((r.edits10m : ℚ) / 10) ((1 : ℚ) / 1000000)) := by
  constructor
  · simp [spikes, List.mem_filter, and_assoc]
  · intro h
    rcases List.mem_flatMap.mp h with ⟨a, _, hfm⟩
    rcases List.mem_filterMap.mp hfm with ⟨b, _, hab⟩
    by_cases hcond : a.project = b.project ∧ a.wstart + 60 = b.wstart + 600
    · rw [if_pos hcond] at hab
      cases hab
      simp [ratioOf, greatestQ_eq_max]
    · rw [if_neg hcond] at hab
      cases hab

/-- A ten-event input realizing the spike scenario of C2: ten events in
the 10-minute window that ends at 600 and five of them in the 1-minute
window that ends at 600. -/
def spikeDemo : List Event :=
  [⟨0, "en", "p", false⟩, ⟨60, "en", "p", false⟩, ⟨120, "en", "p", false⟩,
   ⟨180, "en", "p", false⟩, ⟨240, "en", "p", false⟩,
   ⟨540, "en", "p", false⟩, ⟨541, "en", "p", false⟩, ⟨542, "en", "p", false⟩,
   ⟨543, "en", "p", false⟩, ⟨544, "en", "p", false⟩]

/-- Witness for C2: with `long.count = 10` and `short.count = 5` a spike
row is emitted whose ratio column is exactly 5. -/
lemma spikeDemo_joined :
    (⟨540, "en", 5, 10, 5⟩ : SpikeRow) ∈ spikesJoined spikeDemo := by
  have ha : (⟨540, "en", 5⟩ : CountRow) ∈ edits_1m spikeDemo := by decide
  have hb : (⟨0, "en", 10⟩ : CountRow) ∈ edits_10m spikeDemo := by decide
  refine List.mem_flatMap.mpr ⟨⟨540, "en", 5⟩, ha, ?_⟩
  refine List.mem_filterMap.mpr ⟨⟨0, "en", 10⟩, hb, ?_⟩
  rw [if_pos (by exact ⟨rfl, by norm_num⟩)]
  have hq : ratioOf 5 10 = 5 := by norm_num [ratioOf, greatestQ]
  rw [hq]

theorem spikes_emission_witness :
    (⟨540, "en", 5, 10, 5⟩ : SpikeRow) ∈ spikes spikeDemo
    ∧ (⟨540, "en", 5, 10, 5⟩ : SpikeRow).burst =
        ((5 : Nat) : ℚ) / max (((10 : Nat) : ℚ) / 10) ((1 : ℚ) / 1000000) :=
  ⟨((spikes_emission spikeDemo ⟨540, "en", 5, 10, 5⟩).1).mpr
      ⟨spikeDemo_joined, by norm_num, by norm_num⟩,
    (spikes_emission spikeDemo ⟨540, "en", 5, 10, 5⟩).2 spikeDemo_joined⟩

/-- C9: every emitted spike row carries the score
`(short − long/10) / sqrt(max(long/10, 1))`. -/
theorem score_formula (l : List Event) (q : SpikeRow × ℝ) (hq : q ∈ spikesScored l) :
    q.2 = ((q.1.edits1m : ℝ) - (q.1.edits10m : ℝ) / 10) /
      Real.sqrt (max ((q.1.edits10m : ℝ) / 10) 1) := by
  rcases List.mem_map.mp hq with ⟨r, _, rfl⟩
  rfl

/-- Witness for C9 at the spike scenario row. -/
theorem score_formula_witness :
    ((⟨540, "en", 5, 10, 5⟩ : SpikeRow), scoreOf 5 10) ∈ spikesScored spikeDemo
    ∧ scoreOf 5 10 =
      (((5 : Nat) : ℝ) - ((10 : Nat) : ℝ) / 10) /
        Real.sqrt (max (((10 : Nat) : ℝ) / 10) 1) := by
  have hmem : ((⟨540, "en", 5, 10, 5⟩ : SpikeRow), scoreOf 5 10) ∈ spikesScored spikeDemo := by
    have hr : (⟨540, "en", 5, 10, 5⟩ : SpikeRow) ∈ spikes spikeDemo :=
      List.mem_filter.mpr ⟨spikeDemo_joined, by norm_num⟩
    exact List.mem_map.mpr ⟨⟨540, "en", 5, 10, 5⟩, hr, rfl⟩
  exact ⟨hmem, score_formula spikeDemo _ hmem⟩

/-- The distinct projects whose events touched page `pg` in the sliding
window starting at `w` — the reference value for the `collect_set`
column of query 4. -/
def touchingSources (l : List Event) (w : Int) (pg : String) : List String :=
  ((l.filter (fun e => decide (e.page = pg ∧ w ∈ windowsFor e.ts 600 60))).map
    Event.project).dedup

/-- The number of events of project `p` on page `pg` in the sliding
window starting at `w` — the per-source aggregate count. -/
def srcCount (l : List Event) (w : Int) (pg p : String) : Nat :=
  (l.filter (fun e =>
    decide (e.project = p ∧ e.page = pg ∧ w ∈ windowsFor e.ts 600 60))).length

lemma pages10_map_keys (l : List Event) :
    (pages10 l).map (fun r => (r.wstart, r.project, r.page)) = (l.flatMap pagesKey).dedup := by
  show ((l.flatMap pagesKey).dedup.map _).map _ = (l.flatMap pagesKey).dedup
  rw [List.map_map]
  exact List.map_id _

lemma pages10_triple_nodup (l : List Event) :
    ((pages10 l).map (fun r => (r.wstart, r.project, r.page))).Nodup := by
  rw [pages10_map_keys]
  exact List.nodup_dedup _

lemma pages10_nodup (l : List Event) : (pages10 l).Nodup :=
  (pages10_triple_nodup l).of_map

lemma mem_pages10 (l : List Event) (r : PageRow) :
    r ∈ pages10 l ↔ ∃ k, (∃ e ∈ l, k ∈ pagesKey e)
      ∧ r = ⟨k.1, k.2.1, k.2.2, (groupRows pagesKey k l).length⟩ :=
  mem_groupAgg pagesKey (fun k g => (⟨k.1, k.2.1, k.2.2, g.length⟩ : PageRow)) l r

lemma pages10_key_inj {l : List Event} {r1 r2 : PageRow}
    (h1 : r1 ∈ pages10 l) (h2 : r2 ∈ pages10 l)
    (hw : r1.wstart = r2.wstart) (hp : r1.project = r2.project)
    (hpg : r1.page = r2.page) : r1 = r2 := by
  rcases (mem_pages10 l r1).mp h1 with ⟨k1, _, rfl⟩
  rcases (mem_pages10 l r2).mp h2 with ⟨k2, _, rfl⟩
  obtain rfl : k1 = k2 := by
    rcases k1 with ⟨a1, b1, c1⟩
    rcases k2 with ⟨a2, b2, c2⟩
    simp_all
  rfl

lemma mem_pages10_iff (l : List Event) (w : Int) (p pg : String) :
    (∃ r ∈ pages10 l, r.wstart = w ∧ r.project = p ∧ r.page = pg) ↔
      (∃ e ∈ l, e.project = p ∧ e.page = pg ∧ w ∈ windowsFor e.ts 600 60) := by
  constructor
  · rintro ⟨r, hr, hw, hp, hpg⟩
    rcases (mem_pages10 l r).mp hr with ⟨k, ⟨e, hel, hk⟩, rfl⟩
    obtain rfl : k = (w, p, pg) := by
      rcases k with ⟨a, b, c⟩
      simp_all
    rcases mem_pagesKey.mp hk with ⟨h1, h2, h3⟩
    exact ⟨e, hel, h1.symm, h2.symm, h3⟩
  · rintro ⟨e, hel, hp, hpg, hw⟩
    refine ⟨⟨w, p, pg, (groupRows pagesKey (w, p, pg) l).length⟩, ?_, rfl, rfl, rfl⟩
    exact (mem_pages10 l _).mpr
      ⟨(w, p, pg), ⟨e, hel, mem_pagesKey.mpr ⟨hp.symm, hpg.symm, hw⟩⟩, rfl⟩

lemma pages10_edits {l : List Event} {r : PageRow} (hr : r ∈ pages10 l) :
    r.edits = srcCount l r.wstart r.page r.project := by
  rcases (mem_pages10 l r).mp hr with ⟨k, _, rfl⟩
  show (groupRows pagesKey k l).length = _
  unfold srcCount groupRows
  congr 1
  refine List.filter_congr ?_
  intro e _
  refine decide_eq_decide.mpr ?_
  constructor
  · intro h
    rcases mem_pagesKey.mp h with ⟨h1, h2, h3⟩
    exact ⟨h1.symm, h2.symm, h3⟩
  · rintro ⟨h1, h2, h3⟩
    exact mem_pagesKey.mpr ⟨h1.symm, h2.symm, h3⟩

lemma crossGroup_nodup (l : List Event) (k : Int × String) :
    (crossGroup l k).Nodup :=
  (List.filter_sublist _).nodup (pages10_nodup l)

lemma crossGroup_mem {l : List Event} {k : Int × String} {r : PageRow} :
    r ∈ crossGroup l k ↔ r ∈ pages10 l ∧ r.wstart = k.1 ∧ r.page = k.2 := by
  unfold crossGroup
  rw [List.mem_filter]
  simp

lemma crossGroup_projects_nodup (l : List Event) (k : Int × String) :
    ((crossGroup l k).map (fun r => r.project)).Nodup := by
  refine (crossGroup_nodup l k).map_on ?_
  intro r1 h1 r2 h2 hp
  rcases crossGroup_mem.mp h1 with ⟨hp1, hw1, hg1⟩
  rcases crossGroup_mem.mp h2 with ⟨hp2, hw2, hg2⟩
  exact pages10_key_inj hp1 hp2 (by rw [hw1, hw2]) hp (by rw [hg1, hg2])

lemma crossGroup_projects_iff (l : List Event) (k : Int × String) (p : String) :
    p ∈ (crossGroup l k).map (fun r => r.project) ↔ p ∈ touchingSources l k.1 k.2 := by
  rw [List.mem_map]
  unfold touchingSources
  rw [List.mem_dedup, List.mem_map]
  constructor
  · rintro ⟨r, hr, rfl⟩
    rcases crossGroup_mem.mp hr with ⟨hp, hw, hg⟩
    rcases (mem_pages10_iff l k.1 r.project k.2).mp ⟨r, hp, hw, rfl, hg⟩ with
      ⟨e, hel, he1, he2, he3⟩
    exact ⟨e, List.mem_filter.mpr ⟨hel, by simp [he2, he3]⟩, he1⟩
  · rintro ⟨e, hef, rfl⟩
    rcases List.mem_filter.mp hef with ⟨hel, hcond⟩
    rcases of_decide_eq_true hcond with ⟨hpg, hw⟩
    rcases (mem_pages10_iff l k.1 e.project k.2).mpr ⟨e, hel, rfl, hpg, hw⟩ with
      ⟨r, hr, hrw, hrp, hrpg⟩
    exact ⟨r, crossGroup_mem.mpr ⟨hr, hrw, hrpg⟩, hrp⟩

lemma touchingSources_nodup (l : List Event) (w : Int) (pg : String) :
    (touchingSources l w pg).Nodup := List.nodup_dedup _

lemma crossAll_fields {l : List Event} {r : CrossRow} (hr : r ∈ crossAll l) :
    r.projects = (crossGroup l (r.wstart, r.page)).map (fun q => q.project)
    ∧ r.totalEdits = ((crossGroup l (r.wstart, r.page)).map (fun q => q.edits)).sum
    ∧ r.nProjects = r.projects.length := by
  rcases List.mem_map.mp hr with ⟨k, _, rfl⟩
  have hd : ((crossGroup l k).map (fun q => q.project)).dedup =
      (crossGroup l k).map (fun q => q.project) :=
    List.dedup_eq_self.mpr (crossGroup_projects_nodup l k)
  refine ⟨?_, ?_, ?_⟩
  · show ((crossGroup l (k.1, k.2)).map _).dedup = _
    rw [hd]
  · rfl
  · show ((crossGroup l k).map _).dedup.length = ((crossGroup l k).map _).dedup.length
    rfl

lemma crossAll_char {l : List Event} {r : CrossRow} (hr : r ∈ crossAll l) :
    (∀ p, p ∈ r.projects ↔ p ∈ touchingSources l r.wstart r.page)
    ∧ r.projects.Nodup
    ∧ r.nProjects = r.projects.length
    ∧ r.totalEdits = (r.projects.map (fun p => srcCount l r.wstart r.page p)).sum := by
  rcases crossAll_fields hr with ⟨hps, hte, hn⟩
  refine ⟨?_, ?_, hn, ?_⟩
  · intro p
    rw [hps]
    exact crossGroup_projects_iff l (r.wstart, r.page) p
  · rw [hps]
    exact crossGroup_projects_nodup l (r.wstart, r.page)
  · rw [hte, hps, List.map_map]
    refine congrArg List.sum ?_
    refine (List.map_congr_left ?_).symm
    intro q hq
    rcases crossGroup_mem.mp hq with ⟨hq10, hqw, hqpg⟩
    show srcCount l r.wstart r.page q.project = q.edits
    have hqw2 : q.wstart = r.wstart := hqw
    have hqpg2 : q.page = r.page := hqpg
    rw [← hqw2, ← hqpg2]
    exact (pages10_edits hq10).symm

lemma mem_cross {l : List Event} {r : CrossRow} :
    r ∈ cross l ↔ r ∈ crossAll l ∧ 2 ≤ r.nProjects := by
  unfold cross
  rw [List.mem_filter]
  simp

/-- C3: a cross-source row for (window, page) is emitted exactly when at
least two distinct projects touched the page in that window, and every
emitted row carries exactly the distinct touching projects, their summed
per-source counts, and the project-set size. -/
theorem cross_correct (l : List Event) (w : Int) (pg : String) :
    ((∃ r ∈ cross l, r.wstart = w ∧ r.page = pg) ↔
      2 ≤ (touchingSources l w pg).length)
    ∧ (∀ r ∈ cross l,
        (∀ p, p ∈ r.projects ↔ p ∈ touchingSources l r.wstart r.page)
        ∧ r.projects.Nodup
        ∧ r.nProjects = r.projects.length
        ∧ 2 ≤ r.nProjects
        ∧ r.totalEdits = (r.projects.map (fun p => srcCount l r.wstart r.page p)).sum) := by
  constructor
  · constructor
    · rintro ⟨r, hrc, hw, hpg⟩
      rcases mem_cross.mp hrc with ⟨hall, h2⟩
      rcases crossAll_char hall with ⟨hmem, hnd, hn, _⟩
      have hperm : r.projects.Perm (touchingSources l r.wstart r.page) :=
        (List.perm_ext_iff_of_nodup hnd (touchingSources_nodup l r.wstart r.page)).mpr hmem
      rw [hw, hpg] at hperm
      rw [hn, hperm.length_eq] at h2
      exact h2
    · intro h2t
      have hne : ∃ p, p ∈ touchingSources l w pg :=
        List.exists_mem_of_ne_nil _ (by
          intro hnil
          rw [hnil] at h2t
          simp at h2t)
      rcases hne with ⟨p, hp⟩
      rcases List.mem_dedup.mp hp with hp2
      rcases List.mem_map.mp hp2 with ⟨e, hef, rfl⟩
      rcases List.mem_filter.mp hef with ⟨hel, hcond⟩
      rcases of_decide_eq_true hcond with ⟨hpg, hwm⟩
      rcases (mem_pages10_iff l w e.project pg).mpr ⟨e, hel, rfl, hpg, hwm⟩ with
        ⟨r0, hr0, hr0w, hr0p, hr0pg⟩
      have hkey : (w, pg) ∈ crossKeys l := by
        refine List.mem_dedup.mpr (List.mem_map.mpr ⟨r0, hr0, ?_⟩)
        rw [hr0w, hr0pg]
      have hall : (CrossRow.mk w pg
            ((crossGroup l (w, pg)).map (fun q => q.project)).dedup
            ((crossGroup l (w, pg)).map (fun q => q.edits)).sum
            ((crossGroup l (w, pg)).map (fun q => q.project)).dedup.length)
          ∈ crossAll l :=
        List.mem_map_of_mem _ hkey
      rcases crossAll_char hall with ⟨hmem, hnd, hn, _⟩
      have hperm : (((crossGroup l (w, pg)).map (fun q => q.project)).dedup).Perm
          (touchingSources l w pg) :=
        (List.perm_ext_iff_of_nodup hnd (touchingSources_nodup l w pg)).mpr hmem
      refine ⟨_, mem_cross.mpr ⟨hall, ?_⟩, rfl, rfl⟩
      show 2 ≤ ((crossGroup l (w, pg)).map (fun q => q.project)).dedup.length
      rw [hperm.length_eq]
      exact h2t
  · intro r hrc
    rcases mem_cross.mp hrc with ⟨hall, h2⟩
    rcases crossAll_char hall with ⟨hmem, hnd, hn, hsum⟩
    exact ⟨hmem, hnd, hn, h2, hsum⟩

/-- The cross-source scenario of C3: page "X" edited three times by "en"
and twice by "de" inside the sliding window starting at 0. -/
def crossDemo : List Event :=
  [⟨0, "en", "X", false⟩, ⟨1, "en", "X", false⟩, ⟨2, "en", "X", false⟩,
   ⟨3, "de", "X", false⟩, ⟨4, "de", "X", false⟩]

/-- Witness for C3: a row is emitted for (0, "X"), and it is the row with
projects {en, de} and total count 5. -/
theorem cross_correct_witness :
    2 ≤ (touchingSources crossDemo 0 "X").length
    ∧ (∃ r ∈ cross crossDemo, r.wstart = 0 ∧ r.page = "X")
    ∧ (⟨0, "X", ["en", "de"], 5, 2⟩ : CrossRow) ∈ cross crossDemo :=
  ⟨by decide, (cross_correct crossDemo 0 "X").1.mpr (by decide), by decide⟩

/-- The allowed lateness of the pipeline: 20 minutes
(`withWatermark("ts", "20 minutes")`, src/spark/spark_wiki_file.py:42),
in seconds. -/
def allowedLateness : Int := 1200

/-- Modelled from the spec (§3, §4.1): the watermark bookkeeping behind
`withWatermark` at src/spark/spark_wiki_file.py:42 lives in the external
streaming runtime, not in this repository.  Per the spec the state is the
maximum event time seen so far. -/
structure WmState where
  maxSeen : Int
deriving DecidableEq

/-- Modelled from the spec: admitting an event updates the stage-local
`max_event_time_seen` candidate. -/
def observeEvent (s : WmState) (t : Int) : WmState := ⟨max s.maxSeen t⟩

/-- Modelled from the spec: `W = max(event_time seen) − allowed_lateness`. -/
def currentWatermark (s : WmState) : Int := s.maxSeen - allowedLateness

/-- Modelled from the spec: one watermark-advancing step over a batch of
admitted event times. -/
def advanceWatermark (s : WmState) (batch : List Int) : WmState :=
  batch.foldl observeEvent s

/-- A sequence of `advanceWatermark` calls. -/
def runBatches (s : WmState) (bs : List (List Int)) : WmState :=
  bs.foldl advanceWatermark s

lemma maxSeen_le_advance (batch : List Int) :
    ∀ s : WmState, s.maxSeen ≤ (advanceWatermark s batch).maxSeen := by
  induction batch with
  | nil => intro s; exact le_refl _
  | cons t ts ih =>
    intro s
    have h1 : s.maxSeen ≤ (observeEvent s t).maxSeen := le_max_left _ _
    exact le_trans h1 (ih (observeEvent s t))

/-- C4: across any sequence of `advanceWatermark` calls the watermark
`max(event_time seen) − allowed_lateness` never decreases. -/
theorem watermark_monotone (s : WmState) (bs1 bs2 : List (List Int)) :
    currentWatermark (runBatches s bs1) ≤ currentWatermark (runBatches s (bs1 ++ bs2)) := by
  unfold runBatches
  rw [List.foldl_append]
  generalize bs1.foldl advanceWatermark s = s1
  unfold currentWatermark
  have : s1.maxSeen ≤ (bs2.foldl advanceWatermark s1).maxSeen := by
    induction bs2 generalizing s1 with
    | nil => exact le_refl _
    | cons b bs ih =>
      exact le_trans (maxSeen_le_advance b s1) (ih (advanceWatermark s1 b))
  omega

/-- Modelled from the spec (§4.3): the watermark-driven per-(window, key)
accumulator lifecycle of the streaming runtime (the repository only
declares it via `withWatermark` + windowed `groupBy`,
src/spark/spark_wiki_file.py:42-53).  The engine instance shown here is
the 1-minute tumbling per-project view; `openAcc` holds the OPEN
accumulators, `emitted` the output of CLOSED windows, keyed by window
start and project. -/
structure Engine where
  wm : Int
  maxSeen : Int
  lateDrops : Nat
  openAcc : List ((Int × String) × Nat)
  emitted : List ((Int × String) × Nat)
deriving DecidableEq

/-- Increment the accumulator of key `k`, creating it lazily at 1. -/
def bump (acc : List ((Int × String) × Nat)) (k : Int × String) :
    List ((Int × String) × Nat) :=
  if acc.any (fun q => decide (q.1 = k)) then
    acc.map (fun q => if q.1 = k then (q.1, q.2 + 1) else q)
  else acc ++ [(k, 1)]

/-- Modelled from the spec: `ingest(event)` — an event older than the
current watermark is rejected as late and only counted as a `LateDrop`;
otherwise it updates the max-event-time candidate and the accumulator of
each of its windows. -/
def ingestE (s : Engine) (e : Event) : Engine :=
  if e.ts < s.wm then { s with lateDrops := s.lateDrops + 1 }
  else
    { s with
      maxSeen := max s.maxSeen e.ts,
      openAcc := (windowsFor e.ts 60 60).foldl
        (fun acc w => bump acc (w, e.project)) s.openAcc }

/-- Modelled from the spec: `advanceWatermark` for the engine — raise the
watermark to `maxSeen − allowed_lateness` (never lowering it), close every
open window whose end is at or below the new watermark and emit its
accumulators. -/
def advanceEngine (s : Engine) : Engine :=
  { wm := max s.wm (s.maxSeen - allowedLateness),
    maxSeen := s.maxSeen,
    lateDrops := s.lateDrops,
    openAcc := s.openAcc.filter
      (fun q => decide (max s.wm (s.maxSeen - allowedLateness) < q.1.1 + 60)),
    emitted := s.emitted ++ s.openAcc.filter
      (fun q => decide (q.1.1 + 60 ≤ max s.wm (s.maxSeen - allowedLateness))) }

/-- C5: an event strictly older than the current watermark is dropped and
counted as a late drop; the state — in particular the emitted output of
every already-closed window and every open accumulator — is otherwise
unchanged. -/
theorem late_event_dropped (s : Engine) (e : Event) (h : e.ts < s.wm) :
    ingestE s e = { s with lateDrops := s.lateDrops + 1 }
    ∧ (ingestE s e).emitted = s.emitted
    ∧ (ingestE s e).openAcc = s.openAcc
    ∧ (ingestE s e).lateDrops = s.lateDrops + 1 := by
  have he : ingestE s e = { s with lateDrops := s.lateDrops + 1 } := by
    unfold ingestE
    rw [if_pos h]
  exact ⟨he, by rw [he], by rw [he], by rw [he]⟩

/-- Witness for C5: the watermark has advanced to 1000; the window
`[0, 60)` is closed and emitted, and is still within its eviction grace
period (`60 + 1200 > 1000`); the event at time 999 = W − 1 is dropped
without touching the emitted output. -/
theorem late_event_dropped_witness :
    ingestE ⟨1000, 2200, 0, [], [((0, "en"), 3)]⟩ ⟨999, "en", "X", false⟩
        = ⟨1000, 2200, 1, [], [((0, "en"), 3)]⟩
    ∧ (ingestE ⟨1000, 2200, 0, [], [((0, "en"), 3)]⟩ ⟨999, "en", "X", false⟩).emitted
        = [((0, "en"), 3)]
    ∧ (ingestE ⟨1000, 2200, 0, [], [((0, "en"), 3)]⟩ ⟨999, "en", "X", false⟩).openAcc = []
    ∧ (ingestE ⟨1000, 2200, 0, [], [((0, "en"), 3)]⟩ ⟨999, "en", "X", false⟩).lateDrops
        = 0 + 1 :=
  late_event_dropped ⟨1000, 2200, 0, [], [((0, "en"), 3)]⟩ ⟨999, "en", "X", false⟩
    (by decide)

/-- A raw record of the upstream feed as consumed by the ingestion script
and the Spark schema: `dt` is the parsed `meta.dt` event time (`none`
models a missing or unparsable timestamp, which `to_timestamp` turns into
null), `ns` is the optional `namespace` field, `rtype` the `type` field. -/
structure RawRec where
  dt : Option Int
  server_name : Option String
  wiki : Option String
  title : String
  bot : Bool
  rtype : String
  ns : Option Int
deriving DecidableEq

/-- A source-stream row after the projection at
src/spark/spark_wiki_file.py:35-43: the project is
`coalesce(server_name, wiki)` (still nullable), the page is the title. -/
structure SrcRow where
  ts : Int
  project : Option String
  page : String
  bot : Bool
deriving DecidableEq

/-- The admission filter of the ingestion script
(src/ingest/ingest_to_files.py:55): keep a record exactly when its type
is "edit" or "new" and its namespace — defaulting to 0 when absent — is
0. -/
def ingestKeeps (r : RawRec) : Bool :=
  (r.rtype == "edit" || r.rtype == "new") && (r.ns.getD 0 == 0)

/-- The end-to-end admission of a raw record into the aggregations: the
ingestion filter, then the source projection; a record whose event time
does not parse yields a null `ts` and generates no window downstream, so
it is rejected here.  No key-emptiness check exists anywhere in the
pipeline. -/
def acceptRaw (r : RawRec) : Option SrcRow :=
  if ingestKeeps r then
    match r.dt with
    | some t => some ⟨t, r.server_name.or r.wiki, r.title, r.bot⟩
    | none => none
  else none

/-- Counterexample to C6 as stated: a raw record with an empty
`content_id` (title) is admitted, not rejected. -/
theorem acceptRaw_empty_content_kept :
    acceptRaw ⟨some 0, some "en.wikipedia.org", none, "", false, "edit", some 0⟩
        = some ⟨0, some "en.wikipedia.org", "", false⟩
    ∧ (⟨some 0, some "en.wikipedia.org", none, "", false, "edit", some 0⟩ : RawRec).title
        = "" := by
  constructor
  · rfl
  · rfl

/-- C6 (amended): admission fails exactly when the event time is missing
or unparsable, or the type is neither "edit" nor "new", or the namespace
(defaulting to 0 when absent) is nonzero; empty `source_id`/`content_id`
values are not rejected. -/
theorem acceptRaw_reject_iff (r : RawRec) :
    acceptRaw r = none ↔
      (r.dt = none ∨ (r.rtype ≠ "edit" ∧ r.rtype ≠ "new") ∨ r.ns.getD 0 ≠ 0) := by
  unfold acceptRaw ingestKeeps
  by_cases hk : ((r.rtype == "edit" || r.rtype == "new") && (r.ns.getD 0 == 0)) = true
  · rw [if_pos hk]
    rw [Bool.and_eq_true, Bool.or_eq_true, beq_iff_eq, beq_iff_eq, beq_iff_eq] at hk
    cases hd : r.dt with
    | none => simp [hd]
    | some t =>
      simp only [hd]
      constructor
      · intro hsome
        cases hsome
      · intro hor
        rcases hor with h1 | h2 | h3
        · cases h1
        · rcases hk.1 with he | hn
          · exact absurd he h2.1
          · exact absurd hn h2.2
        · exact absurd hk.2 h3
  · rw [if_neg hk]
    rw [Bool.and_eq_true, Bool.or_eq_true, beq_iff_eq, beq_iff_eq, beq_iff_eq] at hk
    constructor
    · intro _
      by_cases he : r.rtype = "edit"
      · by_cases hn : r.ns.getD 0 = 0
        · exact absurd ⟨Or.inl he, hn⟩ hk
        · exact Or.inr (Or.inr hn)
      · by_cases hw : r.rtype = "new"
        · by_cases hn : r.ns.getD 0 = 0
          · exact absurd ⟨Or.inr hw, hn⟩ hk
          · exact Or.inr (Or.inr hn)
        · exact Or.inr (Or.inl ⟨he, hw⟩)
    · intro _
      rfl

/-- Witness for the amended C6: a record with a missing event time is
rejected. -/
theorem acceptRaw_reject_iff_witness :
    acceptRaw ⟨none, some "en.wikipedia.org", none, "T", false, "edit", some 0⟩ = none ↔
      ((⟨none, some "en.wikipedia.org", none, "T", false, "edit", some 0⟩ : RawRec).dt = none
       ∨ ((⟨none, some "en.wikipedia.org", none, "T", false, "edit", some 0⟩ : RawRec).rtype ≠ "edit"
          ∧ (⟨none, some "en.wikipedia.org", none, "T", false, "edit", some 0⟩ : RawRec).rtype ≠ "new")
       ∨ (⟨none, some "en.wikipedia.org", none, "T", false, "edit", some 0⟩ : RawRec).ns.getD 0 ≠ 0) :=
  acceptRaw_reject_iff ⟨none, some "en.wikipedia.org", none, "T", false, "edit", some 0⟩

/-- Modelled from the spec (§4.6): the durable state of a checkpointed
sink — the parquet `writeStream` sinks at
src/spark/spark_wiki_file.py:120-143 delegate the commit protocol to the
runtime.  Per the spec, durable partitions are keyed deterministically by
`(stream_id, window_end)`. -/
def SinkState : Type := String × Int → Option (List String)

/-- Modelled from the spec: `commit(stream_id, window_end, records)`
overwrites the partition identified by `(stream_id, window_end)`. -/
def commit (st : SinkState) (stream : String) (wend : Int)
    (recs : List String) : SinkState :=
  fun k => if k = (stream, wend) then some recs else st k

/-- C8: committing the same `(stream_id, window_end)` twice leaves the
durable state identical to committing it once. -/
theorem commit_idempotent (st : SinkState) (stream : String) (wend : Int)
    (recs : List String) :
    commit (commit st stream wend recs) stream wend recs
      = commit st stream wend recs := by
  funext k
  unfold commit
  split_ifs <;> rfl

/-- The function `write_batch` (src/ingest/ingest_to_files.py:22-29), with the output
file modelled as its list of lines and the external `json.dumps`
serialization abstracted as `dumps`: an empty buffer writes no file; a
non-empty buffer writes exactly one file with one serialized line per
buffered event, in buffer order. -/
def writeBatch {α : Type} (dumps : α → String) (buf : List α) : Option (List String) :=
  if buf.isEmpty then none else some (buf.map dumps)

/-- C10: no file is written exactly when the buffer is empty, and a
written file has one line per buffered event, in buffer order. -/
theorem writeBatch_correct {α : Type} (dumps : α → String) (buf : List α) :
    (writeBatch dumps buf = none ↔ buf = [])
    ∧ (∀ f, writeBatch dumps buf = some f →
        f.length = buf.length
        ∧ ∀ i (h : i < f.length) (h2 : i < buf.length),
            f.get ⟨i, h⟩ = dumps (buf.get ⟨i, h2⟩)) := by
  constructor
  · unfold writeBatch
    by_cases h : buf.isEmpty
    · rw [if_pos h]
      simp [List.isEmpty_iff] at h
      simp [h]
    · rw [if_neg h]
      simp [List.isEmpty_iff] at h
      simp [h]
  · intro f hf
    unfold writeBatch at hf
    by_cases h : buf.isEmpty
    · rw [if_pos h] at hf
      cases hf
    · rw [if_neg h] at hf
      cases hf
      refine ⟨List.length_map _ _, ?_⟩
      intro i hi h2
      simp [List.get_eq_getElem, List.getElem_map]

/-- Witness for C10 on the buffer `["a", "b"]`. -/
theorem writeBatch_correct_witness :
    writeBatch (fun s : String => s) ["a", "b"] = some ["a", "b"]
    ∧ ((["a", "b"] : List String).length = (["a", "b"] : List String).length
      ∧ ∀ i (h : i < (["a", "b"] : List String).length)
          (h2 : i < (["a", "b"] : List String).length),
          (["a", "b"] : List String).get ⟨i, h⟩
            = (fun s : String => s) ((["a", "b"] : List String).get ⟨i, h2⟩)) :=
  ⟨by decide,
    (writeBatch_correct (fun s : String => s) ["a", "b"]).2 ["a", "b"] (by decide)⟩

end WikiWatch
